import Mathlib

/-!
Verification of the declaration-graph traversal and symbol-classification
engine of the closure-compiler-externs-generator repository.

The definitions below are a shallow embedding of the two variants of the
symbol extractor found in the repository source (both concatenated in
`src/src/logging.ts`):

* the Program-backed variant (`getExternalSymbols`/`findSymbolNames`,
  lines 70-373), which also handles type aliases whose body is a mapped
  type, and
* the file-system-backed variant (lines 481-660), which ignores type
  aliases.

Both variants share the same traversal driver (`loadReferencedFile`,
`visitModuleSpecifier`, `visitSourceFile`), the same classification
helpers (`visitName`, `isDeclared`, `visitModuleDeclaration`,
`visitVariableStatement`, `visitNamedDeclaration`) and the same
entry-point shape (merge the entry files and the `dontFollow` argument
into one visited set of `path.resolve`d paths, then reduce over the
entry files).  The embedding models the shared engine once, with a
`visitTypeAliases` switch selecting the variant.

Because a document's syntax tree is read-only during the traversal, the
actions the traversal performs on one document are a fixed sequence of
"events" (emit a symbol, log a warning, follow an import/export
specifier, follow a triple-slash reference) in document order; the
driver processes these events in order, consulting and growing the
shared visited set exactly where the source recursion does.  The `loads`
field of the driver output is ghost instrumentation recording which
canonical paths were actually loaded and classified (one entry per
execution of the body of `loadReferencedFile`'s `if`); it affects
nothing else.
-/

namespace Cceg

/-- SymbolType, logging.ts lines 29-38 and 436-445. -/
inductive SymbolType where
  | DECLARATION
  | PROPERTY
deriving DecidableEq, Repr

/-- A modifier token on a declaration node (`node.modifiers`).  Only the
`declare` keyword is inspected by the source (`isDeclared`). -/
inductive Modifier where
  | declareKeyword
  | exportKeyword
  | otherModifier
deriving DecidableEq, Repr

/-- isDeclared, logging.ts lines 367-372 / 654-659:
`!!node.modifiers && !!node.modifiers.find(m => m.kind === DeclareKeyword)`.
An absent `modifiers` array is modelled as `[]`. -/
def isDeclared (modifiers : List Modifier) : Bool :=
  (modifiers.find? (fun m => m == Modifier.declareKeyword)).isSome

/-- The `name` of a ts.NamedDeclaration: a plain identifier, a string or
numeric literal, a computed property name, or absent. -/
inductive NameNode where
  | ident (text : String)
  | stringLiteralName (text : String)
  | numericLiteralName (text : String)
  | computedName
  | missingName
deriving DecidableEq, Repr

/-- ts.isIdentifier on a name node. -/
def NameNode.isIdentifier : NameNode → Bool
  | .ident _ => true
  | _ => false

/-- ts.NodeFlags.NestedNamespace (1 shl 2). -/
def NodeFlags.NestedNamespace : Nat := 4

/-- ts.NodeFlags.Namespace (1 shl 4). -/
def NodeFlags.Namespace : Nat := 16

/-- The `node` stored inside an emitted ExternalSymbol: `visitName`
stores the name node itself (logging.ts line 318/642), while
`visitStringLiteralType` stores the mapped type's constraint node
(line 328), identified here by its text. -/
inductive SymNode where
  | nameNode (n : NameNode)
  | constraintRef (text : String)
deriving DecidableEq, Repr

/-- ExternalSymbol, logging.ts lines 40-45 / 447-452.  The
`sourceFile` field keeps the file name of the ts.SourceFile. -/
structure ExternalSymbol where
  type : SymbolType
  name : String
  node : SymNode
  sourceFile : String
deriving DecidableEq, Repr

/-- A source position as produced by
`getLineAndCharacterOfPosition` (logging.ts lines 355-359). -/
structure SourceLocation where
  fileName : String
  line : Nat
  character : Nat
deriving DecidableEq, Repr

/-- formatLocationForNode, logging.ts lines 355-359:
`${sourceFile.fileName}:${location.line}:${location.character}`. -/
def formatLocation (loc : SourceLocation) : String :=
  loc.fileName ++ ":" ++ toString loc.line ++ ":" ++ toString loc.character

/-- The fragment of ts.Type inspected by `visitMappedTypeNode`
(logging.ts lines 247-310): union types, string-literal types,
number-literal types, type parameters, and everything else.  The
`aliasTypeArguments` of an instantiated alias are carried where the
checker can report them. -/
inductive TsType where
  | stringLiteral (value : String) (aliasTypeArguments : Option (List TsType))
  | numberLiteral (text : String) (aliasTypeArguments : Option (List TsType))
  | typeParameter (paramName : String)
  | unionType (types : List TsType)
  | otherType (text : String) (aliasTypeArguments : Option (List TsType))

/-- ts.Type.isUnion(). -/
def TsType.isUnion : TsType → Bool
  | .unionType _ => true
  | _ => false

/-- ts.Type.isTypeParameter(). -/
def TsType.isTypeParameter : TsType → Bool
  | .typeParameter _ => true
  | _ => false

/-- ts.Type.isStringLiteral(). -/
def TsType.isStringLiteral : TsType → Bool
  | .stringLiteral _ _ => true
  | _ => false

/-- ts.Type.aliasTypeArguments (possibly undefined). -/
def TsType.aliasTypeArguments : TsType → Option (List TsType)
  | .stringLiteral _ args => args
  | .numberLiteral _ args => args
  | .otherType _ args => args
  | _ => none

/-- checker.typeToString, as used to print the unresolved type
parameters in `warnUnresolvedTypeParameters` (logging.ts line 347). -/
def TsType.typeToString : TsType → String
  | .stringLiteral v _ => "\"" ++ v ++ "\""
  | .numberLiteral t _ => t
  | .typeParameter n => n
  | .unionType _ => "union"
  | .otherType t _ => t

/-- The decomposition `constraintType.isUnion() ? constraintType.types
: [constraintType]` (logging.ts lines 276-278). -/
def constraintMemberTypes : TsType → List TsType
  | .unionType types => types
  | t => [t]

/-- The constraint node of a mapped type (`node.typeParameter.constraint`)
together with what the surrounding services report about it:
`isKeyOfOperator` models `ts.isTypeOperatorNode(constraint) &&
constraint.operator === SyntaxKind.KeyOfKeyword`; `text` is
`constraint.getText()`; `loc` its formatted position; `resolvedType` is
the outcome of `checker.getTypeAtLocation(constraint)`, with `none`
modelling the call throwing. -/
structure ConstraintNode where
  isKeyOfOperator : Bool
  text : String
  loc : SourceLocation
  resolvedType : Option TsType

/-- ts.MappedTypeNode, restricted to the field the source reads. -/
structure MappedTypeNode where
  constraint : Option ConstraintNode

/-- The body (`node.type`) of a type alias declaration: the switch in
`visitTypeAliasDeclaration` (logging.ts lines 238-245) only
distinguishes mapped types from everything else. -/
inductive AliasBody where
  | mappedType (node : MappedTypeNode)
  | otherTypeBody

/-- A ts.TypeAliasDeclaration: its printed name (`name.getText()`), its
formatted position and its body. -/
structure TypeAliasDecl where
  name : String
  loc : SourceLocation
  body : AliasBody

/-- A module specifier expression of an import/export declaration. -/
inductive ModuleSpecifier where
  | stringLiteralSpec (text : String)
  | nonStringLiteral
  | missingSpecifier
deriving DecidableEq, Repr

/-- One action performed by the traversal, in document order: push a
symbol, log a warning, follow an import/export module specifier
(`visitModuleSpecifier`), or follow a triple-slash file reference
(`visitSourceFile`).  The follow events carry the containing file name
because the source passes `sourceFile.fileName` to the resolvers. -/
inductive TravEvent where
  | emit (sym : ExternalSymbol)
  | warnEvent (message : String)
  | followImport (spec : ModuleSpecifier) (containingFile : String)
  | followTripleslash (refFileName : String) (containingFile : String)
deriving DecidableEq, Repr

/-- The `typeParameters` computed for one union member (logging.ts lines
285-289): `memberType.isTypeParameter() ? [memberType] :
memberType.aliasTypeArguments?.filter(t => t.isTypeParameter())`, with
an undefined result modelled as `[]` (both undefined and an empty
filter fall through the `length > 0` test identically). -/
def memberUnresolved (memberType : TsType) : List TsType :=
  if memberType.isTypeParameter then [memberType]
  else
    match memberType.aliasTypeArguments with
    | some args => args.filter TsType.isTypeParameter
    | none => []

/-- The member loop of `visitMappedTypeNode` (logging.ts lines 280-302):
returns the emitted events (one PROPERTY symbol per string-literal
member that did resolve, in member order) and the collected unresolved
type parameters. -/
def processConstraintMembers (constraintText fileName : String) :
    List TsType → List TravEvent × List TsType
  | [] => ([], [])
  | memberType :: rest =>
    let tail := processConstraintMembers constraintText fileName rest
    let typeParameters := memberUnresolved memberType
    if typeParameters.length > 0 then
      (tail.1, typeParameters ++ tail.2)
    else
      match memberType with
      | .stringLiteral value _ =>
        (TravEvent.emit ⟨SymbolType.PROPERTY, value, SymNode.constraintRef constraintText, fileName⟩
            :: tail.1,
          tail.2)
      | _ => (tail.1, tail.2)

/-- warnUnresolvedConstraintType, logging.ts lines 333-338. -/
def warnUnresolvedConstraintTypeMsg (c : ConstraintNode) : String :=
  "Constraint " ++ c.text ++ " at " ++ formatLocation c.loc ++
    " could not be resolved, and was ignored."

/-- warnUnresolvedTypeParameters, logging.ts lines 340-353. -/
def warnUnresolvedTypeParametersMsg (aliasName : String) (aliasLoc : SourceLocation)
    (typeParameters : List TsType) : String :=
  "Type alias " ++ aliasName ++ " at " ++ formatLocation aliasLoc ++
    " contains unresolved type parameter(s) " ++
    String.intercalate ", " (typeParameters.map TsType.typeToString) ++ "."

/-- visitMappedTypeNode, logging.ts lines 247-310.  A missing
constraint or a `keyof` constraint is skipped; a constraint whose type
cannot be fetched produces one warning and nothing else; otherwise the
union members are processed in order and one warning is appended if any
unresolved type parameters were recorded. -/
def visitMappedTypeNode (typeAlias : TypeAliasDecl) (node : MappedTypeNode)
    (fileName : String) : List TravEvent :=
  match node.constraint with
  | none => []
  | some c =>
    if c.isKeyOfOperator then []
    else
      match c.resolvedType with
      | none => [TravEvent.warnEvent (warnUnresolvedConstraintTypeMsg c)]
      | some constraintType =>
        let processed :=
          processConstraintMembers c.text fileName (constraintMemberTypes constraintType)
        processed.1 ++
          (if processed.2.length > 0 then
            [TravEvent.warnEvent
              (warnUnresolvedTypeParametersMsg typeAlias.name typeAlias.loc processed.2)]
          else [])

/-- visitTypeAliasDeclaration, logging.ts lines 238-245: only a mapped
type body is handled. -/
def visitTypeAliasDeclaration (decl : TypeAliasDecl) (fileName : String) : List TravEvent :=
  match decl.body with
  | .mappedType node => visitMappedTypeNode decl node fileName
  | .otherTypeBody => []

/-- The SyntaxKinds routed to `visitNamedDeclaration` by the dispatch
switch (logging.ts lines 134-143 / 545-554).  All of them are treated
identically by the source. -/
inductive NamedDeclKind where
  | enumMember
  | methodSignature
  | methodDeclaration
  | propertySignature
  | propertyDeclaration
  | propertyAssignment
  | enumDeclaration
  | functionDeclaration
  | classDeclaration
deriving DecidableEq, Repr

/-- The fragment of the ts.Node tree the dispatch switch distinguishes
(logging.ts lines 117-154 / 528-563).  `children` are the nodes reached
by `ts.forEachChild` that can themselves produce symbols or references;
for a variable statement the declarator names
(`declarationList.declarations[i].name`) are listed separately because
`visitVariableStatement` reads them directly.  Node kinds in the
switch's default branch (module blocks, type literals, ...) are
`otherNode`: no action, children still walked. -/
inductive Node where
  | importDeclaration (spec : ModuleSpecifier)
  | exportDeclaration (spec : ModuleSpecifier)
  | moduleDeclaration (flags : Nat) (modifiers : List Modifier) (name : NameNode)
      (children : List Node)
  | variableStatement (modifiers : List Modifier) (declNames : List NameNode)
      (children : List Node)
  | namedDeclaration (kind : NamedDeclKind) (modifiers : List Modifier) (name : NameNode)
      (children : List Node)
  | interfaceDeclaration (name : NameNode) (members : List Node)
  | typeAliasDeclaration (decl : TypeAliasDecl) (children : List Node)
  | otherNode (children : List Node)

/-- visitName, logging.ts lines 312-322 / 636-646: a symbol is pushed
only when the name node exists and `ts.isIdentifier(name)` holds; the
pushed symbol stores the name node itself. -/
def visitNameEvents (nameNode : NameNode) (type : SymbolType) (fileName : String) :
    List TravEvent :=
  match nameNode with
  | .ident text =>
    [TravEvent.emit ⟨type, text, SymNode.nameNode (NameNode.ident text), fileName⟩]
  | _ => []

/-- visitModuleDeclaration, logging.ts lines 225-236 / 623-634: a
non-namespace module is ignored entirely; otherwise the symbol type is
DECLARATION exactly when `isDeclared(node) && node.flags ^
NodeFlags.NestedNamespace` is truthy (`&&&`/`^^^` are JavaScript's
`&`/`^` on the flag word). -/
def visitModuleDeclarationEvents (flags : Nat) (modifiers : List Modifier)
    (nameNode : NameNode) (fileName : String) : List TravEvent :=
  if flags &&& NodeFlags.Namespace == 0 then []
  else
    let type :=
      if isDeclared modifiers && (flags ^^^ NodeFlags.NestedNamespace != 0) then
        SymbolType.DECLARATION
      else SymbolType.PROPERTY
    visitNameEvents nameNode type fileName

/-- visitVariableStatement, logging.ts lines 209-216 / 607-614: one
`visitName` per declarator, all with the statement's symbol type. -/
def visitVariableStatementEvents (modifiers : List Modifier) (declNames : List NameNode)
    (fileName : String) : List TravEvent :=
  let type := if isDeclared modifiers then SymbolType.DECLARATION else SymbolType.PROPERTY
  (declNames.map (fun n => visitNameEvents n type fileName)).flatten

/-- visitNamedDeclaration, logging.ts lines 218-223 / 616-621. -/
def visitNamedDeclarationEvents (modifiers : List Modifier) (nameNode : NameNode)
    (fileName : String) : List TravEvent :=
  let type := if isDeclared modifiers then SymbolType.DECLARATION else SymbolType.PROPERTY
  visitNameEvents nameNode type fileName

mutual
/-- The sequence of actions `visitNode` performs on one node and its
subtree, in order: the dispatch switch's action for the node first,
then `ts.forEachChild(node, visitNode)` (logging.ts lines 117-154 /
528-563).  `cfg` is true for the Program-backed variant (which visits
type alias declarations, line 145-147) and false for the
file-system-backed variant (which ignores them, line 558). -/
def nodeEvents (cfg : Bool) (fileName : String) : Node → List TravEvent
  | .importDeclaration spec => [TravEvent.followImport spec fileName]
  | .exportDeclaration spec => [TravEvent.followImport spec fileName]
  | .moduleDeclaration flags modifiers nameNode children =>
    visitModuleDeclarationEvents flags modifiers nameNode fileName ++
      nodesEvents cfg fileName children
  | .variableStatement modifiers declNames children =>
    visitVariableStatementEvents modifiers declNames fileName ++
      nodesEvents cfg fileName children
  | .namedDeclaration _ modifiers nameNode children =>
    visitNamedDeclarationEvents modifiers nameNode fileName ++
      nodesEvents cfg fileName children
  | .interfaceDeclaration _ members => nodesEvents cfg fileName members
  | .typeAliasDeclaration decl children =>
    (if cfg then visitTypeAliasDeclaration decl fileName else []) ++
      nodesEvents cfg fileName children
  | .otherNode children => nodesEvents cfg fileName children

/-- Events of a list of sibling nodes, in order. -/
def nodesEvents (cfg : Bool) (fileName : String) : List Node → List TravEvent
  | [] => []
  | n :: rest => nodeEvents cfg fileName n ++ nodesEvents cfg fileName rest
end

/-- The parse of one file's text: its triple-slash referenced file
names and its statement nodes. -/
structure FileContent where
  referencedFiles : List String
  statements : List Node

/-- A ts.SourceFile: file name plus parsed content. -/
structure SourceFile where
  fileName : String
  referencedFiles : List String
  statements : List Node

/-- ts.createSourceFile(fileName, text, ...): the resulting source
file's name is exactly the name passed in. -/
def createSourceFile (fileName : String) (content : FileContent) : SourceFile :=
  ⟨fileName, content.referencedFiles, content.statements⟩

/-- The events of a whole document: `visitNode` is first called on the
SourceFile node itself, whose switch case (`visitSourceFile`,
logging.ts lines 173-180 / 582-589) follows every triple-slash
reference, and `forEachChild` then walks the statements. -/
def fileEvents (cfg : Bool) (sf : SourceFile) : List TravEvent :=
  sf.referencedFiles.map (fun r => TravEvent.followTripleslash r sf.fileName) ++
    nodesEvents cfg sf.fileName sf.statements

/-- The capabilities injected into the traversal: `path.resolve`
canonicalization, `ts.resolveTripleslashReference`, the pluggable
`resolveModule(moduleName, containingFile)`, and the document store
(`readFileSync` + `ts.createSourceFile`, or `program.getSourceFile`),
plus the variant switch. -/
structure Env where
  pathResolve : String → String
  resolveTripleslash : String → String → String
  resolveModule : String → String → Option String
  readSource : String → Option FileContent
  visitTypeAliases : Bool

/-- The observable outcome of one traversal: the pushed symbols, the
logged warnings, the ghost trace of loaded canonical paths, and the
final visited (`dontFollow`) set. -/
structure TravOut where
  symbols : List ExternalSymbol
  warnings : List String
  loads : List String
  visited : List String
deriving DecidableEq, Repr

/-- The conditions that abort the whole call: the
`Only string module specifiers are supported` error (logging.ts line
163/572), a document-store read failure, and exhaustion of the
embedding's recursion budget (no counterpart in the source, which
recurses without a budget; see `C9_cycle_termination`). -/
inductive TraversalError where
  | onlyStringModuleSpecifiers
  | readFileFailed (file : String)
  | outOfFuel
deriving DecidableEq, Repr

/-- Sequential composition of two traversal outcomes: the second's
symbols, warnings and loads are appended after the first's (the source
pushes onto shared arrays), and the visited set is the second's. -/
def mergeOut (out1 out2 : TravOut) : TravOut :=
  ⟨out1.symbols ++ out2.symbols, out1.warnings ++ out2.warnings,
    out1.loads ++ out2.loads, out2.visited⟩

/-- The outcome with nothing emitted and an unchanged visited set. -/
def emptyOut (visited : List String) : TravOut := ⟨[], [], [], visited⟩

/-- Exception propagation: a thrown error aborts the rest of the
computation (JavaScript `throw` semantics). -/
def exBind {α β : Type} (x : Except TraversalError α)
    (f : α → Except TraversalError β) : Except TraversalError β :=
  match x with
  | .error err => .error err
  | .ok a => f a

@[simp] theorem exBind_ok {α β : Type} (a : α) (f : α → Except TraversalError β) :
    exBind (.ok a) f = f a := rfl

@[simp] theorem exBind_error {α β : Type} (err : TraversalError)
    (f : α → Except TraversalError β) :
    exBind (Except.error err) f = .error err := rfl

/-- The driver's action for one event.  `loadFn` performs
`loadReferencedFile`; it is a parameter so that the recursion budget
lives only there.  The cases mirror `visitModuleSpecifier` (logging.ts
lines 156-171 / 565-580: a missing specifier returns, a non-string
specifier throws, an unresolvable specifier is skipped) and
`visitSourceFile` (triple-slash references resolved with
`ts.resolveTripleslashReference`). -/
def stepEvent (env : Env) (loadFn : String → List String → Except TraversalError TravOut)
    (e : TravEvent) (visited : List String) : Except TraversalError TravOut :=
  match e with
  | .emit sym => .ok ⟨[sym], [], [], visited⟩
  | .warnEvent w => .ok ⟨[], [w], [], visited⟩
  | .followImport spec containingFile =>
    match spec with
    | .missingSpecifier => .ok ⟨[], [], [], visited⟩
    | .nonStringLiteral => .error .onlyStringModuleSpecifiers
    | .stringLiteralSpec text =>
      match env.resolveModule text containingFile with
      | none => .ok ⟨[], [], [], visited⟩
      | some file => loadFn file visited
  | .followTripleslash refFileName containingFile =>
    loadFn (env.resolveTripleslash refFileName containingFile) visited

/-- Processes a document's events in order, threading the shared
visited set. -/
def runEventsAux (env : Env) (loadFn : String → List String → Except TraversalError TravOut) :
    List TravEvent → List String → Except TraversalError TravOut
  | [], visited => .ok (emptyOut visited)
  | e :: rest, visited =>
    exBind (stepEvent env loadFn e visited) (fun out1 =>
      exBind (runEventsAux env loadFn rest out1.visited) (fun out2 =>
        .ok (mergeOut out1 out2)))

/-- loadReferencedFile, logging.ts lines 182-207 / 591-605: canonicalize
with `path.resolve`, skip if the path is already in the shared set,
otherwise insert it, load the document and recurse into its events.
`fuel` bounds the cross-file recursion depth (the source recurses
unboundedly; `C9_cycle_termination` shows the budget is never exhausted
on a finite corpus). -/
def loadFile (env : Env) (fuel : Nat) (file0 : String) (visited : List String) :
    Except TraversalError TravOut :=
  let file := env.pathResolve file0
  if visited.contains file then .ok ⟨[], [], [], visited⟩
  else
    match env.readSource file with
    | none => .error (.readFileFailed file)
    | some content =>
      match fuel with
      | 0 => .error .outOfFuel
      | f + 1 =>
        exBind
          (runEventsAux env (loadFile env f)
            (fileEvents env.visitTypeAliases (createSourceFile file content))
            (file :: visited))
          (fun out => .ok ⟨out.symbols, out.warnings, file :: out.loads, out.visited⟩)

/-- Event processing with the recursion budget fixed for this level. -/
def runEvents (env : Env) (fuel : Nat) (events : List TravEvent) (visited : List String) :
    Except TraversalError TravOut :=
  runEventsAux env (loadFile env fuel) events visited

/-- findSymbolNames, logging.ts lines 106-116 / 515-527: walk one
document's tree, producing its symbols and following its references. -/
def findSymbolNames (env : Env) (fuel : Nat) (sourceFile : SourceFile)
    (visited : List String) : Except TraversalError TravOut :=
  runEvents env fuel (fileEvents env.visitTypeAliases sourceFile) visited

/-- The entry-file reduce of `getExternalSymbols` (logging.ts lines
90-100 / 498-509): concatenate each entry file's symbols, sharing the
one visited set across all entries. -/
def runEntries (env : Env) (fuel : Nat) : List SourceFile → List String →
    Except TraversalError TravOut
  | [], visited => .ok (emptyOut visited)
  | sf :: rest, visited =>
    exBind (findSymbolNames env fuel sf visited) (fun out1 =>
      exBind (runEntries env fuel rest out1.visited) (fun out2 =>
        .ok (mergeOut out1 out2)))

/-- Whether `small` occurs at the start of `big`. -/
def leadsWith : List Char → List Char → Bool
  | [], _ => true
  | _ :: _, [] => false
  | p :: ps, t :: ts => p == t && leadsWith ps ts

/-- Whether `pat` occurs as a contiguous run anywhere in the text. -/
def occursWithin (pat : List Char) : List Char → Bool
  | [] => leadsWith pat []
  | t :: ts => leadsWith pat (t :: ts) || occursWithin pat ts

/-- isNotIgnored, logging.ts lines 49-56 / 456-463: the single ignore
rule is the regular expression `/node_modules\/@types\/node/` tested
against the file name. -/
def isNotIgnored (sf : SourceFile) : Bool :=
  !(occursWithin "node_modules/@types/node".toList sf.fileName.toList)

/-- The eager entry read `Array.from(files, file =>
ts.createSourceFile(file, fileSystem.readFileSync(file), ...))`
(logging.ts lines 487-490); a read failure is fatal. -/
def readAll (env : Env) : List String → Except TraversalError (List SourceFile)
  | [] => .ok []
  | f :: rest =>
    match env.readSource f with
    | none => .error (.readFileFailed f)
    | some content =>
      exBind (readAll env rest) (fun sfs => .ok (createSourceFile f content :: sfs))

/-- getExternalSymbols, file-system-backed variant, logging.ts lines
481-510: read every entry file, merge entries and `dontFollow` into one
`path.resolve`d visited set, filter ignored entries, and reduce.  This
variant ignores type alias declarations. -/
def getExternalSymbols (env : Env) (fuel : Nat) (files : List String)
    (dontFollow : List String) : Except TraversalError TravOut :=
  let envFs : Env :=
    ⟨env.pathResolve, env.resolveTripleslash, env.resolveModule, env.readSource, false⟩
  exBind (readAll envFs files) (fun sourceFiles =>
    let mergedDontFollow := (files ++ dontFollow).map env.pathResolve
    runEntries envFs fuel (sourceFiles.filter isNotIgnored) mergedDontFollow)

/-- getExternalSymbols, Program-backed variant, logging.ts lines
70-101: entry files are looked up in the program
(`files.map(program.getSourceFile).filter(isDefined)` — a missing entry
is silently dropped), filtered by the ignore rule, and reduced over the
same merged visited set.  This variant visits type alias
declarations. -/
def getExternalSymbolsProgram (env : Env) (fuel : Nat) (files : List String)
    (dontFollow : List String) : Except TraversalError TravOut :=
  let envP : Env :=
    ⟨env.pathResolve, env.resolveTripleslash, env.resolveModule, env.readSource, true⟩
  let sourceFiles :=
    (files.filterMap (fun f => (envP.readSource f).map (createSourceFile f))).filter
      isNotIgnored
  let mergedDontFollow := (files ++ dontFollow).map env.pathResolve
  runEntries envP fuel sourceFiles mergedDontFollow

/-- The symbols among a list of events. -/
def eventsSymbols (events : List TravEvent) : List ExternalSymbol :=
  events.filterMap (fun e =>
    match e with
    | .emit sym => some sym
    | _ => none)

/-- The warnings among a list of events. -/
def eventsWarnings (events : List TravEvent) : List String :=
  events.filterMap (fun e =>
    match e with
    | .warnEvent w => some w
    | _ => none)

/-! ### Helper lemmas about the traversal driver -/

theorem mergeOut_emptyOut (v : List String) (o : TravOut) :
    mergeOut (emptyOut v) o = o := by
  simp [mergeOut, emptyOut]

/-- Sequential decomposition of event processing: processing `a ++ b`
is processing `a`, then processing `b` from the visited set `a` left
behind, concatenating everything emitted. -/
theorem runEventsAux_append (env : Env)
    (loadFn : String → List String → Except TraversalError TravOut)
    (a b : List TravEvent) (visited : List String) :
    runEventsAux env loadFn (a ++ b) visited =
      exBind (runEventsAux env loadFn a visited) (fun out1 =>
        exBind (runEventsAux env loadFn b out1.visited) (fun out2 =>
          .ok (mergeOut out1 out2))) := by
  induction a generalizing visited with
  | nil =>
    simp only [List.nil_append, runEventsAux, exBind_ok, emptyOut]
    cases runEventsAux env loadFn b visited with
    | error err => rfl
    | ok out2 =>
      simp [mergeOut]
  | cons e rest ih =>
    simp only [List.cons_append, runEventsAux]
    cases stepEvent env loadFn e visited with
    | error err => simp
    | ok out1 =>
      simp only [exBind_ok]
      have hab : List.append rest b = rest ++ b := rfl
      rw [hab, ih out1.visited]
      cases runEventsAux env loadFn rest out1.visited with
      | error err => simp
      | ok out2 =>
        simp only [exBind_ok, mergeOut]
        cases runEventsAux env loadFn b out2.visited with
        | error err => simp
        | ok out3 => simp [mergeOut, List.append_assoc]

/-- The visited-set bookkeeping contract of one driver call: the final
visited set is exactly the loaded canonical paths (most recent first)
on top of the initial one, no path is loaded twice, and no
already-visited path is ever loaded. -/
def LoadsSpec (visited : List String) (out : TravOut) : Prop :=
  out.visited = out.loads.reverse ++ visited ∧
    out.loads.Nodup ∧ ∀ p ∈ out.loads, p ∉ visited

theorem loadsSpec_emptyOut (v : List String) : LoadsSpec v (emptyOut v) := by
  simp [LoadsSpec, emptyOut]

theorem LoadsSpec.merge {v : List String} {o1 o2 : TravOut}
    (h1 : LoadsSpec v o1) (h2 : LoadsSpec o1.visited o2) :
    LoadsSpec v (mergeOut o1 o2) := by
  obtain ⟨hv1, hn1, hf1⟩ := h1
  obtain ⟨hv2, hn2, hf2⟩ := h2
  refine ⟨?_, ?_, ?_⟩
  · simp only [mergeOut]
    rw [hv2, hv1, List.reverse_append, List.append_assoc]
  · simp only [mergeOut]
    rw [List.nodup_append]
    refine ⟨hn1, hn2, ?_⟩
    intro p hp1 hp2
    have hnot := hf2 p hp2
    rw [hv1] at hnot
    exact hnot (List.mem_append.mpr (Or.inl (List.mem_reverse.mpr hp1)))
  · intro p hp
    simp only [mergeOut, List.mem_append] at hp
    cases hp with
    | inl h => exact hf1 p h
    | inr h =>
      intro hpv
      have hnot := hf2 p h
      rw [hv1] at hnot
      exact hnot (List.mem_append.mpr (Or.inr hpv))

theorem stepEvent_loadsSpec (env : Env)
    (loadFn : String → List String → Except TraversalError TravOut)
    (hload : ∀ file v out, loadFn file v = .ok out → LoadsSpec v out)
    (e : TravEvent) (visited : List String) (out : TravOut)
    (h : stepEvent env loadFn e visited = .ok out) : LoadsSpec visited out := by
  cases e with
  | emit sym =>
    simp only [stepEvent] at h
    injection h with h
    subst h
    simp [LoadsSpec]
  | warnEvent w =>
    simp only [stepEvent] at h
    injection h with h
    subst h
    simp [LoadsSpec]
  | followImport spec containingFile =>
    cases spec with
    | missingSpecifier =>
      simp only [stepEvent] at h
      injection h with h
      subst h
      simp [LoadsSpec]
    | nonStringLiteral => simp [stepEvent] at h
    | stringLiteralSpec text =>
      simp only [stepEvent] at h
      cases hr : env.resolveModule text containingFile with
      | none =>
        rw [hr] at h
        injection h with h
        subst h
        simp [LoadsSpec]
      | some file =>
        rw [hr] at h
        exact hload file visited out h
  | followTripleslash r c =>
    simp only [stepEvent] at h
    exact hload _ visited out h

theorem runEventsAux_loadsSpec (env : Env)
    (loadFn : String → List String → Except TraversalError TravOut)
    (hload : ∀ file v out, loadFn file v = .ok out → LoadsSpec v out) :
    ∀ (events : List TravEvent) (visited : List String) (out : TravOut),
      runEventsAux env loadFn events visited = .ok out → LoadsSpec visited out := by
  intro events
  induction events with
  | nil =>
    intro v out h
    simp only [runEventsAux] at h
    injection h with h
    subst h
    exact loadsSpec_emptyOut v
  | cons e rest ih =>
    intro v out h
    simp only [runEventsAux] at h
    cases h1 : stepEvent env loadFn e v with
    | error err => rw [h1] at h; simp at h
    | ok out1 =>
      rw [h1] at h
      simp only [exBind_ok] at h
      cases h2 : runEventsAux env loadFn rest out1.visited with
      | error err => rw [h2] at h; simp at h
      | ok out2 =>
        rw [h2] at h
        simp only [exBind_ok] at h
        injection h with h
        subst h
        exact (stepEvent_loadsSpec env loadFn hload e v out1 h1).merge
          (ih out1.visited out2 h2)

theorem loadFile_loadsSpec (env : Env) :
    ∀ (fuel : Nat) (file0 : String) (visited : List String) (out : TravOut),
      loadFile env fuel file0 visited = .ok out → LoadsSpec visited out := by
  intro fuel
  induction fuel with
  | zero =>
    intro file0 v out h
    simp only [loadFile] at h
    by_cases hc : v.contains (env.pathResolve file0)
    · rw [if_pos hc] at h
      injection h with h
      subst h
      exact loadsSpec_emptyOut v
    · rw [if_neg hc] at h
      cases hr : env.readSource (env.pathResolve file0) with
      | none => rw [hr] at h; simp at h
      | some content => rw [hr] at h; simp at h
  | succ f ih =>
    intro file0 v out h
    simp only [loadFile] at h
    by_cases hc : v.contains (env.pathResolve file0)
    · rw [if_pos hc] at h
      injection h with h
      subst h
      exact loadsSpec_emptyOut v
    · rw [if_neg hc] at h
      cases hr : env.readSource (env.pathResolve file0) with
      | none => rw [hr] at h; simp at h
      | some content =>
        rw [hr] at h
        simp only [] at h
        cases h2 : runEventsAux env (loadFile env f)
            (fileEvents env.visitTypeAliases
              (createSourceFile (env.pathResolve file0) content))
            (env.pathResolve file0 :: v) with
        | error err => rw [h2] at h; simp at h
        | ok out1 =>
          rw [h2] at h
          simp only [exBind_ok] at h
          injection h with h
          subst h
          obtain ⟨hv, hn, hf⟩ :=
            runEventsAux_loadsSpec env (loadFile env f)
              (fun fl v2 o hh => ih fl v2 o hh) _ _ _ h2
          have hfile : env.pathResolve file0 ∉ v := by simpa using hc
          refine ⟨?_, ?_, ?_⟩
          · simpa [List.append_assoc] using hv
          · rw [List.nodup_cons]
            refine ⟨?_, hn⟩
            intro hmem
            exact (hf _ hmem) (List.mem_cons_self _ _)
          · intro p hp
            rcases List.mem_cons.mp hp with h | h
            · subst h; exact hfile
            · intro hpv
              exact (hf p h) (List.mem_cons.mpr (Or.inr hpv))

theorem runEntries_loadsSpec (env : Env) (fuel : Nat) :
    ∀ (sfs : List SourceFile) (visited : List String) (out : TravOut),
      runEntries env fuel sfs visited = .ok out → LoadsSpec visited out := by
  intro sfs
  induction sfs with
  | nil =>
    intro v out h
    simp only [runEntries] at h
    injection h with h
    subst h
    exact loadsSpec_emptyOut v
  | cons sf rest ih =>
    intro v out h
    simp only [runEntries] at h
    cases h1 : findSymbolNames env fuel sf v with
    | error err => rw [h1] at h; simp at h
    | ok out1 =>
      rw [h1] at h
      simp only [exBind_ok] at h
      cases h2 : runEntries env fuel rest out1.visited with
      | error err => rw [h2] at h; simp at h
      | ok out2 =>
        rw [h2] at h
        simp only [exBind_ok] at h
        injection h with h
        subst h
        have hs1 : LoadsSpec v out1 :=
          runEventsAux_loadsSpec env (loadFile env fuel)
            (fun fl v2 o hh => loadFile_loadsSpec env fuel fl v2 o hh) _ _ _ h1
        exact hs1.merge (ih out1.visited out2 h2)

theorem getExternalSymbols_loadsSpec (env : Env) (fuel : Nat)
    (files dontFollow : List String) (out : TravOut)
    (h : getExternalSymbols env fuel files dontFollow = .ok out) :
    LoadsSpec ((files ++ dontFollow).map env.pathResolve) out := by
  simp only [getExternalSymbols] at h
  cases hr : readAll
      ⟨env.pathResolve, env.resolveTripleslash, env.resolveModule, env.readSource, false⟩
      files with
  | error err => rw [hr] at h; simp at h
  | ok sourceFiles =>
    rw [hr] at h
    simp only [exBind_ok] at h
    exact runEntries_loadsSpec _ fuel _ _ out h

/-- An emitted symbol coming from one of the documents the call
loaded. -/
def FromLoads (env : Env) (loads : List String) (sym : ExternalSymbol) : Prop :=
  ∃ f content, f ∈ loads ∧ env.readSource f = some content ∧
    TravEvent.emit sym ∈ fileEvents env.visitTypeAliases (createSourceFile f content)

theorem FromLoads.mono {env : Env} {loads loads' : List String} {sym : ExternalSymbol}
    (h : FromLoads env loads sym) (hsub : ∀ p ∈ loads, p ∈ loads') :
    FromLoads env loads' sym := by
  obtain ⟨f, c, hf, hr, hm⟩ := h
  exact ⟨f, c, hsub f hf, hr, hm⟩

theorem stepEvent_origin (env : Env)
    (loadFn : String → List String → Except TraversalError TravOut)
    (hload : ∀ file v out, loadFn file v = .ok out →
      ∀ sym ∈ out.symbols, FromLoads env out.loads sym)
    (e : TravEvent) (visited : List String) (out : TravOut)
    (h : stepEvent env loadFn e visited = .ok out) :
    ∀ sym ∈ out.symbols, TravEvent.emit sym = e ∨ FromLoads env out.loads sym := by
  cases e with
  | emit sym0 =>
    simp only [stepEvent] at h
    injection h with h
    subst h
    intro sym hs
    simp only [List.mem_singleton] at hs
    subst hs
    exact Or.inl rfl
  | warnEvent w =>
    simp only [stepEvent] at h
    injection h with h
    subst h
    intro sym hs
    simp at hs
  | followImport spec cf =>
    cases spec with
    | missingSpecifier =>
      simp only [stepEvent] at h
      injection h with h
      subst h
      intro sym hs
      simp at hs
    | nonStringLiteral => simp [stepEvent] at h
    | stringLiteralSpec text =>
      simp only [stepEvent] at h
      cases hr : env.resolveModule text cf with
      | none =>
        rw [hr] at h
        injection h with h
        subst h
        intro sym hs
        simp at hs
      | some file =>
        rw [hr] at h
        intro sym hs
        exact Or.inr (hload file visited out h sym hs)
  | followTripleslash r c =>
    simp only [stepEvent] at h
    intro sym hs
    exact Or.inr (hload _ visited out h sym hs)

theorem runEventsAux_origin (env : Env)
    (loadFn : String → List String → Except TraversalError TravOut)
    (hload : ∀ file v out, loadFn file v = .ok out →
      ∀ sym ∈ out.symbols, FromLoads env out.loads sym) :
    ∀ (events : List TravEvent) (visited : List String) (out : TravOut),
      runEventsAux env loadFn events visited = .ok out →
      ∀ sym ∈ out.symbols, TravEvent.emit sym ∈ events ∨ FromLoads env out.loads sym := by
  intro events
  induction events with
  | nil =>
    intro v out h
    simp only [runEventsAux] at h
    injection h with h
    subst h
    intro sym hs
    simp [emptyOut] at hs
  | cons e rest ih =>
    intro v out h
    simp only [runEventsAux] at h
    cases h1 : stepEvent env loadFn e v with
    | error err => rw [h1] at h; simp at h
    | ok out1 =>
      rw [h1] at h
      simp only [exBind_ok] at h
      cases h2 : runEventsAux env loadFn rest out1.visited with
      | error err => rw [h2] at h; simp at h
      | ok out2 =>
        rw [h2] at h
        simp only [exBind_ok] at h
        injection h with h
        subst h
        intro sym hs
        simp only [mergeOut, List.mem_append] at hs
        cases hs with
        | inl hs1 =>
          rcases stepEvent_origin env loadFn hload e v out1 h1 sym hs1 with he | hf
          · rw [← he]
            exact Or.inl (List.mem_cons_self _ _)
          · refine Or.inr (hf.mono ?_)
            intro p hp
            simp only [mergeOut, List.mem_append]
            exact Or.inl hp
        | inr hs2 =>
          rcases ih out1.visited out2 h2 sym hs2 with he | hf
          · exact Or.inl (List.mem_cons_of_mem e he)
          · refine Or.inr (hf.mono ?_)
            intro p hp
            simp only [mergeOut, List.mem_append]
            exact Or.inr hp

theorem loadFile_origin (env : Env) :
    ∀ (fuel : Nat) (file0 : String) (visited : List String) (out : TravOut),
      loadFile env fuel file0 visited = .ok out →
      ∀ sym ∈ out.symbols, FromLoads env out.loads sym := by
  intro fuel
  induction fuel with
  | zero =>
    intro file0 v out h
    simp only [loadFile] at h
    by_cases hc : v.contains (env.pathResolve file0)
    · rw [if_pos hc] at h
      injection h with h
      subst h
      intro sym hs
      simp [emptyOut] at hs
    · rw [if_neg hc] at h
      cases hr : env.readSource (env.pathResolve file0) with
      | none => rw [hr] at h; simp at h
      | some content => rw [hr] at h; simp at h
  | succ f ih =>
    intro file0 v out h
    simp only [loadFile] at h
    by_cases hc : v.contains (env.pathResolve file0)
    · rw [if_pos hc] at h
      injection h with h
      subst h
      intro sym hs
      simp [emptyOut] at hs
    · rw [if_neg hc] at h
      cases hr : env.readSource (env.pathResolve file0) with
      | none => rw [hr] at h; simp at h
      | some content =>
        rw [hr] at h
        simp only [] at h
        cases h2 : runEventsAux env (loadFile env f)
            (fileEvents env.visitTypeAliases
              (createSourceFile (env.pathResolve file0) content))
            (env.pathResolve file0 :: v) with
        | error err => rw [h2] at h; simp at h
        | ok out1 =>
          rw [h2] at h
          simp only [exBind_ok] at h
          injection h with h
          subst h
          intro sym hs
          rcases runEventsAux_origin env (loadFile env f)
              (fun fl v2 o hh => ih fl v2 o hh) _ _ _ h2 sym hs with he | hf
          · exact ⟨env.pathResolve file0, content, List.mem_cons_self _ _, hr, he⟩
          · exact hf.mono (fun p hp => List.mem_cons_of_mem _ hp)

theorem runEntries_origin (env : Env) (fuel : Nat) :
    ∀ (sfs : List SourceFile) (visited : List String) (out : TravOut),
      runEntries env fuel sfs visited = .ok out →
      ∀ sym ∈ out.symbols,
        (∃ sf ∈ sfs, TravEvent.emit sym ∈ fileEvents env.visitTypeAliases sf) ∨
          FromLoads env out.loads sym := by
  intro sfs
  induction sfs with
  | nil =>
    intro v out h
    simp only [runEntries] at h
    injection h with h
    subst h
    intro sym hs
    simp [emptyOut] at hs
  | cons sf rest ih =>
    intro v out h
    simp only [runEntries] at h
    cases h1 : findSymbolNames env fuel sf v with
    | error err => rw [h1] at h; simp at h
    | ok out1 =>
      rw [h1] at h
      simp only [exBind_ok] at h
      cases h2 : runEntries env fuel rest out1.visited with
      | error err => rw [h2] at h; simp at h
      | ok out2 =>
        rw [h2] at h
        simp only [exBind_ok] at h
        injection h with h
        subst h
        intro sym hs
        simp only [mergeOut, List.mem_append] at hs
        cases hs with
        | inl hs1 =>
          rcases runEventsAux_origin env (loadFile env fuel)
              (fun fl v2 o hh => loadFile_origin env fuel fl v2 o hh) _ _ _ h1 sym hs1 with
            he | hf
          · exact Or.inl ⟨sf, List.mem_cons_self _ _, he⟩
          · refine Or.inr (hf.mono ?_)
            intro p hp
            simp only [mergeOut, List.mem_append]
            exact Or.inl hp
        | inr hs2 =>
          rcases ih out1.visited out2 h2 sym hs2 with ⟨sf2, hsf2, he⟩ | hf
          · exact Or.inl ⟨sf2, List.mem_cons_of_mem _ hsf2, he⟩
          · refine Or.inr (hf.mono ?_)
            intro p hp
            simp only [mergeOut, List.mem_append]
            exact Or.inr hp

/-! ### Characterization of the mapped-type member loop -/

/-- The events the member loop emits: exactly one PROPERTY symbol per
string-literal member that carries no unresolved type parameters, in
member order. -/
theorem processConstraintMembers_events (ct fn : String) :
    ∀ members : List TsType,
      (processConstraintMembers ct fn members).1 =
        members.filterMap (fun m =>
          if (memberUnresolved m).length > 0 then none
          else
            match m with
            | .stringLiteral value _ =>
              some (TravEvent.emit
                ⟨SymbolType.PROPERTY, value, SymNode.constraintRef ct, fn⟩)
            | _ => none) := by
  intro members
  induction members with
  | nil => simp [processConstraintMembers]
  | cons m rest ih =>
    simp only [processConstraintMembers, List.filterMap_cons]
    by_cases hlen : (memberUnresolved m).length > 0
    · rw [if_pos hlen, if_pos hlen]
      exact ih
    · rw [if_neg hlen, if_neg hlen]
      cases m with
      | stringLiteral v args => simpa using ih
      | numberLiteral t args => simpa using ih
      | typeParameter n => simpa using ih
      | unionType ts => simpa using ih
      | otherType t args => simpa using ih

/-- The unresolved type parameters the member loop collects: the
concatenation, in member order, of each member's own contribution. -/
theorem processConstraintMembers_unresolved (ct fn : String) :
    ∀ members : List TsType,
      (processConstraintMembers ct fn members).2 =
        (members.map memberUnresolved).flatten := by
  intro members
  induction members with
  | nil => simp [processConstraintMembers]
  | cons m rest ih =>
    simp only [processConstraintMembers, List.map_cons, List.flatten_cons]
    by_cases hlen : (memberUnresolved m).length > 0
    · rw [if_pos hlen]
      simpa using congrArg (memberUnresolved m ++ ·) ih
    · rw [if_neg hlen]
      have hnil : memberUnresolved m = [] := by
        cases hx : memberUnresolved m with
        | nil => rfl
        | cons a l => rw [hx] at hlen; simp at hlen
      cases m with
      | stringLiteral v args => simpa [hnil] using ih
      | numberLiteral t args => simpa [hnil] using ih
      | typeParameter n => simpa [hnil] using ih
      | unionType ts => simpa [hnil] using ih
      | otherType t args => simpa [hnil] using ih

/-! ### Shape of emitted symbols -/

theorem visitNameEvents_emit {nm : NameNode} {t : SymbolType} {fn : String}
    {sym : ExternalSymbol} (h : TravEvent.emit sym ∈ visitNameEvents nm t fn) :
    sym.sourceFile = fn ∧ sym.node = SymNode.nameNode (NameNode.ident sym.name) := by
  cases nm with
  | ident text =>
    simp only [visitNameEvents, List.mem_singleton] at h
    injection h with h
    subst h
    exact ⟨rfl, rfl⟩
  | stringLiteralName text => simp [visitNameEvents] at h
  | numericLiteralName text => simp [visitNameEvents] at h
  | computedName => simp [visitNameEvents] at h
  | missingName => simp [visitNameEvents] at h

theorem visitModuleDeclarationEvents_emit {flags : Nat} {modifiers : List Modifier}
    {nm : NameNode} {fn : String} {sym : ExternalSymbol}
    (h : TravEvent.emit sym ∈ visitModuleDeclarationEvents flags modifiers nm fn) :
    sym.sourceFile = fn ∧ sym.node = SymNode.nameNode (NameNode.ident sym.name) := by
  simp only [visitModuleDeclarationEvents] at h
  split at h
  · simp at h
  · exact visitNameEvents_emit h

theorem visitVariableStatementEvents_emit {modifiers : List Modifier}
    {declNames : List NameNode} {fn : String} {sym : ExternalSymbol}
    (h : TravEvent.emit sym ∈ visitVariableStatementEvents modifiers declNames fn) :
    sym.sourceFile = fn ∧ sym.node = SymNode.nameNode (NameNode.ident sym.name) := by
  simp only [visitVariableStatementEvents, List.mem_flatten] at h
  obtain ⟨l, hl, hm⟩ := h
  rw [List.mem_map] at hl
  obtain ⟨nm, _, rfl⟩ := hl
  exact visitNameEvents_emit hm

theorem visitNamedDeclarationEvents_emit {modifiers : List Modifier} {nm : NameNode}
    {fn : String} {sym : ExternalSymbol}
    (h : TravEvent.emit sym ∈ visitNamedDeclarationEvents modifiers nm fn) :
    sym.sourceFile = fn ∧ sym.node = SymNode.nameNode (NameNode.ident sym.name) := by
  simp only [visitNamedDeclarationEvents] at h
  exact visitNameEvents_emit h

theorem processConstraintMembers_emit {ct fn : String} {members : List TsType}
    {sym : ExternalSymbol}
    (h : TravEvent.emit sym ∈ (processConstraintMembers ct fn members).1) :
    sym.sourceFile = fn := by
  rw [processConstraintMembers_events] at h
  rw [List.mem_filterMap] at h
  obtain ⟨m, _, hm⟩ := h
  split at hm
  · simp at hm
  · cases m with
    | stringLiteral v args =>
      simp only [Option.some.injEq] at hm
      injection hm with hm
      subst hm
      rfl
    | numberLiteral t args => simp at hm
    | typeParameter n => simp at hm
    | unionType ts => simp at hm
    | otherType t args => simp at hm

theorem visitMappedTypeNode_emit {ta : TypeAliasDecl} {node : MappedTypeNode}
    {fn : String} {sym : ExternalSymbol}
    (h : TravEvent.emit sym ∈ visitMappedTypeNode ta node fn) :
    sym.sourceFile = fn := by
  simp only [visitMappedTypeNode] at h
  cases hc : node.constraint with
  | none => rw [hc] at h; simp at h
  | some c =>
    rw [hc] at h
    simp only [] at h
    split at h
    · simp at h
    · cases hr : c.resolvedType with
      | none => rw [hr] at h; simp at h
      | some constraintType =>
        rw [hr] at h
        simp only [] at h
        rw [List.mem_append] at h
        cases h with
        | inl h => exact processConstraintMembers_emit h
        | inr h =>
          split at h
          · simp at h
          · simp at h

theorem visitTypeAliasDeclaration_emit {decl : TypeAliasDecl} {fn : String}
    {sym : ExternalSymbol}
    (h : TravEvent.emit sym ∈ visitTypeAliasDeclaration decl fn) :
    sym.sourceFile = fn := by
  simp only [visitTypeAliasDeclaration] at h
  cases hb : decl.body with
  | mappedType node =>
    rw [hb] at h
    simp only [] at h
    exact visitMappedTypeNode_emit h
  | otherTypeBody => rw [hb] at h; simp at h

mutual
/-- Every symbol a node's subtree emits carries the containing file
name, and, in the file-system-backed variant, is named by a plain
identifier name node. -/
theorem nodeEvents_emit_props (cfg : Bool) (fn : String) (n : Node) :
    ∀ sym : ExternalSymbol, TravEvent.emit sym ∈ nodeEvents cfg fn n →
      sym.sourceFile = fn ∧
        (cfg = false → sym.node = SymNode.nameNode (NameNode.ident sym.name)) := by
  cases n with
  | importDeclaration spec => intro sym h; simp [nodeEvents] at h
  | exportDeclaration spec => intro sym h; simp [nodeEvents] at h
  | moduleDeclaration flags modifiers nm children =>
    intro sym h
    rw [nodeEvents, List.mem_append] at h
    cases h with
    | inl h =>
      obtain ⟨h1, h2⟩ := visitModuleDeclarationEvents_emit h
      exact ⟨h1, fun _ => h2⟩
    | inr h => exact nodesEvents_emit_props cfg fn children sym h
  | variableStatement modifiers declNames children =>
    intro sym h
    rw [nodeEvents, List.mem_append] at h
    cases h with
    | inl h =>
      obtain ⟨h1, h2⟩ := visitVariableStatementEvents_emit h
      exact ⟨h1, fun _ => h2⟩
    | inr h => exact nodesEvents_emit_props cfg fn children sym h
  | namedDeclaration kind modifiers nm children =>
    intro sym h
    rw [nodeEvents, List.mem_append] at h
    cases h with
    | inl h =>
      obtain ⟨h1, h2⟩ := visitNamedDeclarationEvents_emit h
      exact ⟨h1, fun _ => h2⟩
    | inr h => exact nodesEvents_emit_props cfg fn children sym h
  | interfaceDeclaration nm members =>
    intro sym h
    rw [nodeEvents] at h
    exact nodesEvents_emit_props cfg fn members sym h
  | typeAliasDeclaration decl children =>
    intro sym h
    rw [nodeEvents, List.mem_append] at h
    cases h with
    | inl h =>
      cases cfg with
      | false => simp at h
      | true =>
        simp only [if_true] at h
        exact ⟨visitTypeAliasDeclaration_emit h, fun hf => by simp at hf⟩
    | inr h => exact nodesEvents_emit_props cfg fn children sym h
  | otherNode children =>
    intro sym h
    rw [nodeEvents] at h
    exact nodesEvents_emit_props cfg fn children sym h

theorem nodesEvents_emit_props (cfg : Bool) (fn : String) (ns : List Node) :
    ∀ sym : ExternalSymbol, TravEvent.emit sym ∈ nodesEvents cfg fn ns →
      sym.sourceFile = fn ∧
        (cfg = false → sym.node = SymNode.nameNode (NameNode.ident sym.name)) := by
  cases ns with
  | nil => intro sym h; simp [nodesEvents] at h
  | cons n rest =>
    intro sym h
    rw [nodesEvents, List.mem_append] at h
    cases h with
    | inl h => exact nodeEvents_emit_props cfg fn n sym h
    | inr h => exact nodesEvents_emit_props cfg fn rest sym h
end

/-- Lifting of the emitted-symbol shape to a whole document. -/
theorem fileEvents_emit_props {cfg : Bool} {sf : SourceFile} {sym : ExternalSymbol}
    (h : TravEvent.emit sym ∈ fileEvents cfg sf) :
    sym.sourceFile = sf.fileName ∧
      (cfg = false → sym.node = SymNode.nameNode (NameNode.ident sym.name)) := by
  rw [fileEvents, List.mem_append] at h
  cases h with
  | inl h =>
    rw [List.mem_map] at h
    obtain ⟨r, _, hr⟩ := h
    simp at hr
  | inr h => exact nodesEvents_emit_props cfg sf.fileName sf.statements sym h

/-! ### Fuel sufficiency: the recursion budget is never exhausted on a
finite corpus -/

/-- The list `keys` bounds the document store's support: only paths in
`keys` can be read. -/
def KeysBound (env : Env) (keys : List String) : Prop :=
  ∀ f content, env.readSource f = some content → f ∈ keys

/-- The number of corpus keys not yet in the visited set. -/
def missingCount (keys visited : List String) : Nat :=
  keys.countP (fun k => !(visited.contains k))

theorem missingCount_le_length (keys visited : List String) :
    missingCount keys visited ≤ keys.length :=
  List.countP_le_length _

theorem missingCount_mono {keys v v' : List String} (hsub : ∀ x ∈ v, x ∈ v') :
    missingCount keys v' ≤ missingCount keys v := by
  apply List.countP_mono_left
  intro k _ hk
  have hk' : k ∉ v' := by simpa using hk
  simpa using fun hm => hk' (hsub k hm)

theorem missingCount_strict {keys v : List String} {file : String}
    (hmem : file ∈ keys) (hnot : file ∉ v) :
    missingCount keys (file :: v) < missingCount keys v := by
  induction keys with
  | nil => simp at hmem
  | cons k ks ih =>
    simp only [missingCount, List.countP_cons]
    by_cases hk : k = file
    · subst hk
      have h1 : (!(v.contains k)) = true := by simpa using hnot
      have h2 : (!((k :: v).contains k)) = false := by simp
      rw [h1, h2]
      have htail : missingCount ks (k :: v) ≤ missingCount ks v :=
        missingCount_mono (fun x hx => List.mem_cons_of_mem _ hx)
      simp only [missingCount] at htail
      simp only [Bool.false_eq_true, if_false, if_true]
      omega
    · have hmem2 : file ∈ ks := by
        rcases List.mem_cons.mp hmem with h | h
        · exact absurd h.symm hk
        · exact h
      have heq : ((file :: v).contains k) = (v.contains k) := by
        rw [List.contains_cons]
        have hne : (k == file) = false := by simpa using hk
        rw [hne, Bool.false_or]
      rw [heq]
      have hih := ih hmem2
      simp only [missingCount] at hih
      omega

theorem stepEvent_noFuel (env : Env)
    (loadFn : String → List String → Except TraversalError TravOut)
    (keys : List String) (n : Nat)
    (hl : ∀ file v, missingCount keys v ≤ n → loadFn file v ≠ .error .outOfFuel)
    (e : TravEvent) (v : List String) (hm : missingCount keys v ≤ n) :
    stepEvent env loadFn e v ≠ .error .outOfFuel := by
  cases e with
  | emit sym => simp [stepEvent]
  | warnEvent w => simp [stepEvent]
  | followImport spec cf =>
    cases spec with
    | missingSpecifier => simp [stepEvent]
    | nonStringLiteral => simp [stepEvent]
    | stringLiteralSpec text =>
      simp only [stepEvent]
      cases hr : env.resolveModule text cf with
      | none => simp
      | some file => exact hl file v hm
  | followTripleslash r c =>
    simp only [stepEvent]
    exact hl _ v hm

theorem runEventsAux_noFuel (env : Env)
    (loadFn : String → List String → Except TraversalError TravOut)
    (keys : List String) (n : Nat)
    (hspec : ∀ file v out, loadFn file v = .ok out → LoadsSpec v out)
    (hl : ∀ file v, missingCount keys v ≤ n → loadFn file v ≠ .error .outOfFuel) :
    ∀ (events : List TravEvent) (v : List String), missingCount keys v ≤ n →
      runEventsAux env loadFn events v ≠ .error .outOfFuel := by
  intro events
  induction events with
  | nil => intro v hm h; simp [runEventsAux, emptyOut] at h
  | cons e rest ih =>
    intro v hm h
    simp only [runEventsAux] at h
    cases h1 : stepEvent env loadFn e v with
    | error err =>
      rw [h1] at h
      simp only [exBind_error] at h
      injection h with h
      subst h
      exact stepEvent_noFuel env loadFn keys n hl e v hm h1
    | ok out1 =>
      rw [h1] at h
      simp only [exBind_ok] at h
      cases h2 : runEventsAux env loadFn rest out1.visited with
      | error err =>
        rw [h2] at h
        simp only [exBind_error] at h
        injection h with h
        subst h
        have hspec1 := stepEvent_loadsSpec env loadFn hspec e v out1 h1
        have hsub : ∀ x ∈ v, x ∈ out1.visited := by
          rw [hspec1.1]
          intro x hx
          exact List.mem_append.mpr (Or.inr hx)
        exact ih out1.visited (le_trans (missingCount_mono hsub) hm) h2
      | ok out2 =>
        rw [h2] at h
        simp at h

theorem loadFile_noFuel (env : Env) (keys : List String) (hk : KeysBound env keys) :
    ∀ (fuel : Nat) (file0 : String) (v : List String), missingCount keys v ≤ fuel →
      loadFile env fuel file0 v ≠ .error .outOfFuel := by
  intro fuel
  induction fuel with
  | zero =>
    intro file0 v hm h
    simp only [loadFile] at h
    by_cases hc : v.contains (env.pathResolve file0)
    · rw [if_pos hc] at h
      simp at h
    · rw [if_neg hc] at h
      cases hr : env.readSource (env.pathResolve file0) with
      | none => rw [hr] at h; simp at h
      | some content =>
        have hkf : env.pathResolve file0 ∈ keys := hk _ _ hr
        have hnv : env.pathResolve file0 ∉ v := by simpa using hc
        have hpos : 0 < missingCount keys v := by
          rw [missingCount, List.countP_pos_iff]
          exact ⟨env.pathResolve file0, hkf, by simpa using hnv⟩
        omega
  | succ f ih =>
    intro file0 v hm h
    simp only [loadFile] at h
    by_cases hc : v.contains (env.pathResolve file0)
    · rw [if_pos hc] at h
      simp at h
    · rw [if_neg hc] at h
      cases hr : env.readSource (env.pathResolve file0) with
      | none => rw [hr] at h; simp at h
      | some content =>
        rw [hr] at h
        simp only [] at h
        have hkf : env.pathResolve file0 ∈ keys := hk _ _ hr
        have hnv : env.pathResolve file0 ∉ v := by simpa using hc
        have hstrict := missingCount_strict hkf hnv
        have hm2 : missingCount keys (env.pathResolve file0 :: v) ≤ f := by omega
        cases h2 : runEventsAux env (loadFile env f)
            (fileEvents env.visitTypeAliases
              (createSourceFile (env.pathResolve file0) content))
            (env.pathResolve file0 :: v) with
        | error err =>
          rw [h2] at h
          simp only [exBind_error] at h
          injection h with h
          subst h
          exact runEventsAux_noFuel env (loadFile env f) keys f
            (fun fl v2 o hh => loadFile_loadsSpec env f fl v2 o hh)
            (fun fl v2 hm3 => ih fl v2 hm3) _ _ hm2 h2
        | ok out1 =>
          rw [h2] at h
          simp at h

theorem runEntries_noFuel (env : Env) (keys : List String) (fuel : Nat)
    (hk : KeysBound env keys) :
    ∀ (sfs : List SourceFile) (v : List String), missingCount keys v ≤ fuel →
      runEntries env fuel sfs v ≠ .error .outOfFuel := by
  intro sfs
  induction sfs with
  | nil => intro v hm h; simp [runEntries, emptyOut] at h
  | cons sf rest ih =>
    intro v hm h
    simp only [runEntries] at h
    cases h1 : findSymbolNames env fuel sf v with
    | error err =>
      rw [h1] at h
      simp only [exBind_error] at h
      injection h with h
      subst h
      exact runEventsAux_noFuel env (loadFile env fuel) keys fuel
        (fun fl v2 o hh => loadFile_loadsSpec env fuel fl v2 o hh)
        (fun fl v2 hm3 => loadFile_noFuel env keys hk fuel fl v2 hm3) _ _ hm h1
    | ok out1 =>
      rw [h1] at h
      simp only [exBind_ok] at h
      cases h2 : runEntries env fuel rest out1.visited with
      | error err =>
        rw [h2] at h
        simp only [exBind_error] at h
        injection h with h
        subst h
        have hspec := runEventsAux_loadsSpec env (loadFile env fuel)
          (fun fl v2 o hh => loadFile_loadsSpec env fuel fl v2 o hh) _ _ _ h1
        have hsub : ∀ x ∈ v, x ∈ out1.visited := by
          rw [hspec.1]
          intro x hx
          exact List.mem_append.mpr (Or.inr hx)
        exact ih out1.visited (le_trans (missingCount_mono hsub) hm) h2
      | ok out2 =>
        rw [h2] at h
        simp at h

theorem readAll_fileNames (env : Env) :
    ∀ (files : List String) (sfs : List SourceFile),
      readAll env files = .ok sfs → ∀ sf ∈ sfs, sf.fileName ∈ files := by
  intro files
  induction files with
  | nil =>
    intro sfs h sf hsf
    simp only [readAll] at h
    injection h with h
    subst h
    simp at hsf
  | cons f rest ih =>
    intro sfs h sf hsf
    simp only [readAll] at h
    cases hr : env.readSource f with
    | none => rw [hr] at h; simp at h
    | some content =>
      rw [hr] at h
      simp only [] at h
      cases h2 : readAll env rest with
      | error err => rw [h2] at h; simp at h
      | ok sfs2 =>
        rw [h2] at h
        simp only [exBind_ok] at h
        injection h with h
        subst h
        rcases List.mem_cons.mp hsf with h | h
        · subst h; exact List.mem_cons_self _ _
        · exact List.mem_cons_of_mem _ (ih sfs2 h2 sf h)

theorem readAll_noFuel (env : Env) :
    ∀ files : List String, readAll env files ≠ .error .outOfFuel := by
  intro files
  induction files with
  | nil => intro h; simp [readAll] at h
  | cons f rest ih =>
    intro h
    simp only [readAll] at h
    cases hr : env.readSource f with
    | none => rw [hr] at h; simp at h
    | some content =>
      rw [hr] at h
      simp only [] at h
      cases h2 : readAll env rest with
      | error err =>
        rw [h2] at h
        simp only [exBind_error] at h
        injection h with h
        subst h
        exact ih h2
      | ok sfs2 => rw [h2] at h; simp at h

/-! ### Claim theorems -/

/-- C1: within one top-level `getExternalSymbols` call, over any
reference graph, each canonical file path is loaded and classified at
most once: `loadReferencedFile` canonicalizes with `path.resolve`,
tests membership in the shared visited set and inserts before
recursing, so the ghost trace of loaded paths never repeats a path. -/
theorem C1_no_duplicate_visits (env : Env) (fuel : Nat) (files dontFollow : List String)
    (out : TravOut) (h : getExternalSymbols env fuel files dontFollow = .ok out) :
    ∀ p : String, out.loads.count p ≤ 1 := by
  have hspec := getExternalSymbols_loadsSpec env fuel files dontFollow out h
  exact List.nodup_iff_count_le_one.mp hspec.2.1

/-- A corpus in which the entry references the same file twice: `e`
imports `./b` twice, so `b` is loaded once and skipped once. -/
def envDiamond : Env :=
  ⟨id, fun r _ => r, fun m _ => if m == "./b" then some "b" else none,
    fun f =>
      if f == "e" then
        some ⟨[], [Node.importDeclaration (.stringLiteralSpec "./b"),
                   Node.importDeclaration (.stringLiteralSpec "./b")]⟩
      else if f == "b" then
        some ⟨[], [Node.namedDeclaration .classDeclaration [.declareKeyword]
                    (.ident "b1") []]⟩
      else none,
    false⟩

theorem C1_no_duplicate_visits_witness :
    (⟨[⟨SymbolType.DECLARATION, "b1", SymNode.nameNode (NameNode.ident "b1"), "b"⟩],
        [], ["b"], ["b", "e"]⟩ : TravOut).loads.count "b" ≤ 1 :=
  C1_no_duplicate_visits envDiamond 2 ["e"] []
    ⟨[⟨SymbolType.DECLARATION, "b1", SymNode.nameNode (NameNode.ident "b1"), "b"⟩],
      [], ["b"], ["b", "e"]⟩ rfl "b"

/-- A corpus with one file `a` declaring `x`; used with `a` both as the
entry list and as the seed set. -/
def envSeed : Env :=
  ⟨id, fun r _ => r, fun _ _ => none,
    fun f =>
      if f == "a" then
        some ⟨[], [Node.namedDeclaration .classDeclaration [.declareKeyword]
                    (.ident "x") []]⟩
      else none,
    false⟩

/-- C2 counterexample: with the file `a` passed both as an entry file
and in `dontFollow`, the call still classifies `a` once as an entry and
returns a symbol whose source is `a`, although the claim says no symbol
from a seed-set file may appear in the result. -/
theorem C2_seed_exclusion_counterexample :
    (match getExternalSymbols envSeed 1 ["a"] ["a"] with
      | .ok out => out.symbols.any (fun s => s.sourceFile == "a")
      | .error _ => false) = true := rfl

/-- C2 (amended): a path in the caller-supplied seed set is never
loaded via references — the loaded-path trace is disjoint from the
merged entry+seed set — and every emitted symbol comes from an entry
file or from such a load; an entry file that is also in the seed set is
still classified once, as an entry. -/
theorem C2_seed_exclusion_amended (env : Env) (fuel : Nat) (files dontFollow : List String)
    (out : TravOut) (h : getExternalSymbols env fuel files dontFollow = .ok out) :
    (∀ p ∈ out.loads, p ∉ (files ++ dontFollow).map env.pathResolve) ∧
      ∀ sym ∈ out.symbols, sym.sourceFile ∈ files ∨ sym.sourceFile ∈ out.loads := by
  constructor
  · exact (getExternalSymbols_loadsSpec env fuel files dontFollow out h).2.2
  · simp only [getExternalSymbols] at h
    cases hr : readAll
        ⟨env.pathResolve, env.resolveTripleslash, env.resolveModule, env.readSource, false⟩
        files with
    | error err => rw [hr] at h; simp at h
    | ok sourceFiles =>
      rw [hr] at h
      simp only [exBind_ok] at h
      intro sym hs
      rcases runEntries_origin _ fuel _ _ out h sym hs with ⟨sf, hsf, he⟩ | hf
      · left
        rw [(fileEvents_emit_props he).1]
        exact readAll_fileNames _ files sourceFiles hr sf (List.mem_of_mem_filter hsf)
      · right
        obtain ⟨f, c, hf1, hf2, hf3⟩ := hf
        rw [(fileEvents_emit_props hf3).1]
        exact hf1

/-- A corpus where the entry `a` references `./s`, with `s` passed in
the seed set: `s` is skipped, only `a` itself is classified. -/
def envSeedW : Env :=
  ⟨id, fun r _ => r, fun m _ => if m == "./s" then some "s" else none,
    fun f =>
      if f == "a" then
        some ⟨[], [Node.namedDeclaration .classDeclaration [.declareKeyword]
                    (.ident "x") [],
                   Node.importDeclaration (.stringLiteralSpec "./s")]⟩
      else if f == "s" then
        some ⟨[], [Node.namedDeclaration .classDeclaration [.declareKeyword]
                    (.ident "hidden") []]⟩
      else none,
    false⟩

theorem C2_seed_exclusion_amended_witness :
    (⟨SymbolType.DECLARATION, "x", SymNode.nameNode (NameNode.ident "x"), "a"⟩
        : ExternalSymbol).sourceFile ∈ ["a"] ∨
      (⟨SymbolType.DECLARATION, "x", SymNode.nameNode (NameNode.ident "x"), "a"⟩
        : ExternalSymbol).sourceFile ∈ ([] : List String) :=
  (C2_seed_exclusion_amended envSeedW 1 ["a"] ["s"]
      ⟨[⟨SymbolType.DECLARATION, "x", SymNode.nameNode (NameNode.ident "x"), "a"⟩],
        [], [], ["a", "s"]⟩ rfl).2
    ⟨SymbolType.DECLARATION, "x", SymNode.nameNode (NameNode.ident "x"), "a"⟩ (by simp)

/-- C9: on a finite corpus — `keys` lists every readable path — the
traversal never exhausts a recursion budget of `keys.length`, even when
documents reference each other cyclically: the visited set grows
monotonically and is consulted before every recursion into a referenced
file, so the cross-file recursion depth is bounded by the number of
unvisited corpus files. -/
theorem C9_cycle_termination (env : Env) (keys : List String) (fuel : Nat)
    (files dontFollow : List String) (hk : KeysBound env keys)
    (hfuel : keys.length ≤ fuel) :
    getExternalSymbols env fuel files dontFollow ≠ .error .outOfFuel := by
  intro h
  simp only [getExternalSymbols] at h
  cases hr : readAll
      ⟨env.pathResolve, env.resolveTripleslash, env.resolveModule, env.readSource, false⟩
      files with
  | error err =>
    rw [hr] at h
    simp only [exBind_error] at h
    injection h with h
    subst h
    exact readAll_noFuel _ files hr
  | ok sourceFiles =>
    rw [hr] at h
    simp only [exBind_ok] at h
    have hk2 : KeysBound
        ⟨env.pathResolve, env.resolveTripleslash, env.resolveModule, env.readSource, false⟩
        keys := hk
    exact runEntries_noFuel _ keys fuel hk2 _ _
      (le_trans (missingCount_le_length keys _) hfuel) h

/-- A two-file cyclic corpus: `a` imports `./b` and `b` imports `./a`. -/
def envCyclic : Env :=
  ⟨id, fun r _ => r,
    fun m _ =>
      if m == "./b" then some "b" else if m == "./a" then some "a" else none,
    fun f =>
      if f == "a" then
        some ⟨[], [Node.namedDeclaration .classDeclaration [.declareKeyword]
                    (.ident "aSym") [],
                   Node.importDeclaration (.stringLiteralSpec "./b")]⟩
      else if f == "b" then
        some ⟨[], [Node.namedDeclaration .classDeclaration [.declareKeyword]
                    (.ident "bSym") [],
                   Node.importDeclaration (.stringLiteralSpec "./a")]⟩
      else none,
    false⟩

theorem C9_cycle_termination_witness :
    getExternalSymbols envCyclic 2 ["a"] [] ≠ .error .outOfFuel :=
  C9_cycle_termination envCyclic ["a", "b"] 2 ["a"] []
    (by
      intro f c h
      simp only [envCyclic] at h
      split at h
      · rename_i hf
        simp only [beq_iff_eq] at hf
        subst hf
        simp
      · split at h
        · rename_i hf
          simp only [beq_iff_eq] at hf
          subst hf
          simp
        · simp at h)
    (by simp)

/-- C10: a symbol is emitted for a named construct only when its name
node is a plain identifier — `visitName` silently skips string-literal,
numeric-literal, computed and missing names — so in the
file-system-backed variant every name in the result originates from an
identifier node (the stored `node` is the identifier itself). -/
theorem C10_identifier_names :
    (∀ (nm : NameNode) (t : SymbolType) (fn : String),
        nm.isIdentifier = false → visitNameEvents nm t fn = []) ∧
      ∀ (env : Env) (fuel : Nat) (files dontFollow : List String) (out : TravOut),
        getExternalSymbols env fuel files dontFollow = .ok out →
        ∀ sym ∈ out.symbols, sym.node = SymNode.nameNode (NameNode.ident sym.name) := by
  constructor
  · intro nm t fn h
    cases nm with
    | ident text => simp [NameNode.isIdentifier] at h
    | stringLiteralName text => rfl
    | numericLiteralName text => rfl
    | computedName => rfl
    | missingName => rfl
  · intro env fuel files dontFollow out h sym hs
    simp only [getExternalSymbols] at h
    cases hr : readAll
        ⟨env.pathResolve, env.resolveTripleslash, env.resolveModule, env.readSource, false⟩
        files with
    | error err => rw [hr] at h; simp at h
    | ok sourceFiles =>
      rw [hr] at h
      simp only [exBind_ok] at h
      rcases runEntries_origin _ fuel _ _ out h sym hs with ⟨sf, hsf, he⟩ | hf
      · exact (fileEvents_emit_props he).2 rfl
      · obtain ⟨f, c, hf1, hf2, hf3⟩ := hf
        exact (fileEvents_emit_props hf3).2 rfl

/-- A corpus whose only file declares one member with a string-literal
name (skipped) and one enum member with an identifier name. -/
def envC10 : Env :=
  ⟨id, fun r _ => r, fun _ _ => none,
    fun f =>
      if f == "a" then
        some ⟨[], [Node.namedDeclaration .propertyAssignment []
                    (.stringLiteralName "s") [],
                   Node.namedDeclaration .enumMember [] (.ident "ok1") []]⟩
      else none,
    false⟩

theorem C10_identifier_names_witness :
    visitNameEvents (NameNode.stringLiteralName "s") SymbolType.PROPERTY "a" = [] ∧
      (⟨SymbolType.PROPERTY, "ok1", SymNode.nameNode (NameNode.ident "ok1"), "a"⟩
          : ExternalSymbol).node = SymNode.nameNode (NameNode.ident "ok1") :=
  ⟨C10_identifier_names.1 (NameNode.stringLiteralName "s") SymbolType.PROPERTY "a" rfl,
    C10_identifier_names.2 envC10 1 ["a"] []
      ⟨[⟨SymbolType.PROPERTY, "ok1", SymNode.nameNode (NameNode.ident "ok1"), "a"⟩],
        [], [], ["a"]⟩ rfl
      ⟨SymbolType.PROPERTY, "ok1", SymNode.nameNode (NameNode.ident "ok1"), "a"⟩
      (by simp)⟩

/-- The document `declare namespace Parent.Nested { namespace Child { } }`
as the TypeScript parser produces it: `Parent` carries the `declare`
modifier and the Namespace flag; the nested segment `Nested` carries
the Namespace and NestedNamespace flags and no modifiers of its own;
`Child` sits inside `Nested`'s module block with the Namespace flag and
no modifiers. -/
def parentNsNode : Node :=
  Node.moduleDeclaration NodeFlags.Namespace [Modifier.declareKeyword]
    (NameNode.ident "Parent")
    [Node.moduleDeclaration (NodeFlags.Namespace ||| NodeFlags.NestedNamespace) []
      (NameNode.ident "Nested")
      [Node.otherNode
        [Node.moduleDeclaration NodeFlags.Namespace [] (NameNode.ident "Child")
          [Node.otherNode []]]]]

/-- An environment whose corpus and resolvers are empty. -/
def envC3 : Env := ⟨id, fun r _ => r, fun _ _ => none, fun _ => none, false⟩

/-- C3: the input `declare namespace Parent.Nested { namespace Child { } }`
classifies to exactly [Parent: DECLARATION, Nested: PROPERTY,
Child: PROPERTY]; in general — given the parser invariant that a
nested segment of a dotted namespace path never carries its own
`declare` modifier — a namespace name is a DECLARATION exactly when its
own declaration node carries the `declare` modifier and it is not a
nested segment, and every other namespace name is a PROPERTY. -/
theorem C3_namespace_nesting :
    findSymbolNames envC3 0 ⟨"ns.d.ts", [], [parentNsNode]⟩ [] =
        .ok ⟨[⟨SymbolType.DECLARATION, "Parent",
                SymNode.nameNode (NameNode.ident "Parent"), "ns.d.ts"⟩,
              ⟨SymbolType.PROPERTY, "Nested",
                SymNode.nameNode (NameNode.ident "Nested"), "ns.d.ts"⟩,
              ⟨SymbolType.PROPERTY, "Child",
                SymNode.nameNode (NameNode.ident "Child"), "ns.d.ts"⟩],
             [], [], []⟩ ∧
      ∀ (flags : Nat) (modifiers : List Modifier) (nm : NameNode) (fn : String),
        flags &&& NodeFlags.Namespace ≠ 0 →
        (flags &&& NodeFlags.NestedNamespace ≠ 0 → isDeclared modifiers = false) →
        visitModuleDeclarationEvents flags modifiers nm fn =
          visitNameEvents nm
            (if isDeclared modifiers = true ∧ flags &&& NodeFlags.NestedNamespace = 0 then
              SymbolType.DECLARATION
            else SymbolType.PROPERTY) fn := by
  constructor
  · rfl
  · intro flags modifiers nm fn h1 h2
    simp only [visitModuleDeclarationEvents]
    have hcond : ¬(flags &&& NodeFlags.Namespace == 0) = true := by simpa using h1
    rw [if_neg hcond]
    congr 1
    by_cases hd : isDeclared modifiers = true
    · have h40 : flags &&& NodeFlags.NestedNamespace = 0 := by
        by_contra hne
        rw [h2 hne] at hd
        simp at hd
      have hxne : (flags ^^^ NodeFlags.NestedNamespace != 0) = true := by
        simp only [bne_iff_ne, ne_eq]
        intro hx0
        have hf4 : flags = NodeFlags.NestedNamespace := Nat.xor_eq_zero.mp hx0
        rw [hf4] at h1
        exact h1 (by decide)
      rw [hd, hxne]
      simp [h40, hd]
    · have hd2 : isDeclared modifiers = false := by
        cases hb : isDeclared modifiers
        · rfl
        · exact absurd hb hd
      rw [hd2]
      simp [hd2]

theorem C3_namespace_nesting_witness :
    visitModuleDeclarationEvents (NodeFlags.Namespace ||| NodeFlags.NestedNamespace) []
        (NameNode.ident "Nested") "ns.d.ts" =
      visitNameEvents (NameNode.ident "Nested")
        (if isDeclared [] = true ∧
            (NodeFlags.Namespace ||| NodeFlags.NestedNamespace) &&&
              NodeFlags.NestedNamespace = 0 then
          SymbolType.DECLARATION
        else SymbolType.PROPERTY) "ns.d.ts" :=
  C3_namespace_nesting.2 (NodeFlags.Namespace ||| NodeFlags.NestedNamespace) []
    (NameNode.ident "Nested") "ns.d.ts" (by decide) (fun _ => rfl)

/-- The member loop emits no warnings of its own. -/
theorem processConstraintMembers_noWarnings (ct fn : String) (members : List TsType) :
    eventsWarnings (processConstraintMembers ct fn members).1 = [] := by
  simp only [eventsWarnings, processConstraintMembers_events, List.filterMap_filterMap]
  rw [List.filterMap_eq_nil_iff]
  intro m hm
  by_cases hlen : (memberUnresolved m).length > 0
  · simp [hlen]
  · cases m with
    | stringLiteral v args => simp [hlen]
    | numberLiteral t args => simp [hlen]
    | typeParameter n => simp [hlen]
    | unionType ts => simp [hlen]
    | otherType t args => simp [hlen]

/-- The symbols the member loop emits, as a filterMap over the union
members. -/
theorem processConstraintMembers_symbols (ct fn : String) (members : List TsType) :
    eventsSymbols (processConstraintMembers ct fn members).1 =
      members.filterMap (fun m =>
        if (memberUnresolved m).length > 0 then none
        else
          match m with
          | .stringLiteral value _ =>
            some ⟨SymbolType.PROPERTY, value, SymNode.constraintRef ct, fn⟩
          | _ => none) := by
  simp only [eventsSymbols, processConstraintMembers_events, List.filterMap_filterMap]
  apply List.filterMap_congr
  intro m hm
  by_cases hlen : (memberUnresolved m).length > 0
  · simp [hlen]
  · cases m with
    | stringLiteral v args => simp [hlen]
    | numberLiteral t args => simp [hlen]
    | typeParameter n => simp [hlen]
    | unionType ts => simp [hlen]
    | otherType t args => simp [hlen]

/-- C4: a type alias whose body is a mapped type keyed by a union of
plain members (no unresolved type parameters anywhere) emits exactly
one PROPERTY symbol per string-literal union member, named by the
literal's exact text, in the union's member order; members that are not
string literals emit nothing, and no warning is emitted. -/
theorem C4_mapped_type_literal_union (aliasName : String) (aliasLoc : SourceLocation)
    (c : ConstraintNode) (members : List TsType) (fn : String)
    (hkey : c.isKeyOfOperator = false)
    (hres : c.resolvedType = some (TsType.unionType members))
    (hplain : members.all (fun m => (memberUnresolved m).isEmpty) = true) :
    eventsSymbols
        (visitTypeAliasDeclaration ⟨aliasName, aliasLoc, .mappedType ⟨some c⟩⟩ fn) =
      members.filterMap (fun m =>
        match m with
        | .stringLiteral value _ =>
          some ⟨SymbolType.PROPERTY, value, SymNode.constraintRef c.text, fn⟩
        | _ => none) ∧
    eventsWarnings
        (visitTypeAliasDeclaration ⟨aliasName, aliasLoc, .mappedType ⟨some c⟩⟩ fn) = [] := by
  have hall : ∀ m ∈ members, memberUnresolved m = [] := by
    rw [List.all_eq_true] at hplain
    intro m hm
    exact List.isEmpty_iff.mp (hplain m hm)
  have hun : (processConstraintMembers c.text fn members).2 = [] := by
    rw [processConstraintMembers_unresolved, List.flatten_eq_nil_iff]
    intro l hl
    rw [List.mem_map] at hl
    obtain ⟨m, hm, rfl⟩ := hl
    exact hall m hm
  have hevents :
      visitTypeAliasDeclaration ⟨aliasName, aliasLoc, .mappedType ⟨some c⟩⟩ fn =
        (processConstraintMembers c.text fn members).1 := by
    simp [visitTypeAliasDeclaration, visitMappedTypeNode, hkey, hres,
      constraintMemberTypes, hun]
  rw [hevents]
  constructor
  · rw [processConstraintMembers_symbols]
    apply List.filterMap_congr
    intro m hm
    rw [hall m hm]
    simp
  · exact processConstraintMembers_noWarnings c.text fn members

theorem C4_mapped_type_literal_union_witness :
    eventsSymbols
        (visitTypeAliasDeclaration
          ⟨"M", ⟨"f.d.ts", 1, 0⟩,
            .mappedType ⟨some ⟨false, "K", ⟨"f.d.ts", 1, 10⟩,
              some (.unionType [.stringLiteral "a" none, .stringLiteral "b" none,
                .stringLiteral "c" none, .numberLiteral "1" none])⟩⟩⟩ "f.d.ts") =
      [⟨SymbolType.PROPERTY, "a", SymNode.constraintRef "K", "f.d.ts"⟩,
       ⟨SymbolType.PROPERTY, "b", SymNode.constraintRef "K", "f.d.ts"⟩,
       ⟨SymbolType.PROPERTY, "c", SymNode.constraintRef "K", "f.d.ts"⟩] ∧
    eventsWarnings
        (visitTypeAliasDeclaration
          ⟨"M", ⟨"f.d.ts", 1, 0⟩,
            .mappedType ⟨some ⟨false, "K", ⟨"f.d.ts", 1, 10⟩,
              some (.unionType [.stringLiteral "a" none, .stringLiteral "b" none,
                .stringLiteral "c" none, .numberLiteral "1" none])⟩⟩⟩ "f.d.ts") = [] :=
  C4_mapped_type_literal_union "M" ⟨"f.d.ts", 1, 0⟩
    ⟨false, "K", ⟨"f.d.ts", 1, 10⟩,
      some (.unionType [.stringLiteral "a" none, .stringLiteral "b" none,
        .stringLiteral "c" none, .numberLiteral "1" none])⟩
    [.stringLiteral "a" none, .stringLiteral "b" none, .stringLiteral "c" none,
      .numberLiteral "1" none]
    "f.d.ts" rfl rfl rfl

/-- C5: when resolving the key constraint finds unresolved generic type
parameters among the union members, exactly one warning is emitted for
the whole type alias, with the exact text
`Type alias <name> at <file:line:col> contains unresolved type
parameter(s) <comma-joined names>.`, and the string-literal members
that did resolve are still emitted as PROPERTY symbols. -/
theorem C5_unresolved_type_parameters (aliasName : String) (aliasLoc : SourceLocation)
    (c : ConstraintNode) (t : TsType) (fn : String)
    (hkey : c.isKeyOfOperator = false)
    (hres : c.resolvedType = some t)
    (hunres : ((constraintMemberTypes t).map memberUnresolved).flatten ≠ []) :
    eventsWarnings
        (visitTypeAliasDeclaration ⟨aliasName, aliasLoc, .mappedType ⟨some c⟩⟩ fn) =
      ["Type alias " ++ aliasName ++ " at " ++ formatLocation aliasLoc ++
        " contains unresolved type parameter(s) " ++
        String.intercalate ", "
          ((((constraintMemberTypes t).map memberUnresolved).flatten).map
            TsType.typeToString) ++ "."] ∧
    eventsSymbols
        (visitTypeAliasDeclaration ⟨aliasName, aliasLoc, .mappedType ⟨some c⟩⟩ fn) =
      (constraintMemberTypes t).filterMap (fun m =>
        if (memberUnresolved m).length > 0 then none
        else
          match m with
          | .stringLiteral value _ =>
            some ⟨SymbolType.PROPERTY, value, SymNode.constraintRef c.text, fn⟩
          | _ => none) := by
  have hp2 : (processConstraintMembers c.text fn (constraintMemberTypes t)).2 =
      ((constraintMemberTypes t).map memberUnresolved).flatten :=
    processConstraintMembers_unresolved c.text fn (constraintMemberTypes t)
  have hlen : (processConstraintMembers c.text fn (constraintMemberTypes t)).2.length > 0 := by
    rw [hp2]
    exact List.length_pos.mpr hunres
  have hevents :
      visitTypeAliasDeclaration ⟨aliasName, aliasLoc, .mappedType ⟨some c⟩⟩ fn =
        (processConstraintMembers c.text fn (constraintMemberTypes t)).1 ++
          [TravEvent.warnEvent
            (warnUnresolvedTypeParametersMsg aliasName aliasLoc
              (processConstraintMembers c.text fn (constraintMemberTypes t)).2)] := by
    simp [visitTypeAliasDeclaration, visitMappedTypeNode, hkey, hres, hlen]
  rw [hevents]
  constructor
  · simp only [eventsWarnings, List.filterMap_append]
    have hw := processConstraintMembers_noWarnings c.text fn (constraintMemberTypes t)
    simp only [eventsWarnings] at hw
    rw [hw]
    simp only [List.nil_append, List.filterMap_cons, List.filterMap_nil]
    rw [hp2]
    simp [warnUnresolvedTypeParametersMsg]
  · simp only [eventsSymbols, List.filterMap_append]
    have hs := processConstraintMembers_symbols c.text fn (constraintMemberTypes t)
    simp only [eventsSymbols] at hs
    rw [hs]
    simp

theorem C5_unresolved_type_parameters_witness :
    eventsWarnings
        (visitTypeAliasDeclaration
          ⟨"M", ⟨"f.d.ts", 3, 5⟩,
            .mappedType ⟨some ⟨false, "T", ⟨"f.d.ts", 3, 14⟩,
              some (TsType.typeParameter "T")⟩⟩⟩ "f.d.ts") =
      ["Type alias M at f.d.ts:3:5 contains unresolved type parameter(s) T."] ∧
    eventsSymbols
        (visitTypeAliasDeclaration
          ⟨"M", ⟨"f.d.ts", 3, 5⟩,
            .mappedType ⟨some ⟨false, "T", ⟨"f.d.ts", 3, 14⟩,
              some (TsType.typeParameter "T")⟩⟩⟩ "f.d.ts") = [] :=
  C5_unresolved_type_parameters "M" ⟨"f.d.ts", 3, 5⟩
    ⟨false, "T", ⟨"f.d.ts", 3, 14⟩, some (TsType.typeParameter "T")⟩
    (TsType.typeParameter "T") "f.d.ts" rfl rfl (List.cons_ne_nil _ _)

/-- An empty-corpus environment for the Program-backed variant (type
aliases visited). -/
def envC6 : Env := ⟨id, fun r _ => r, fun _ _ => none, fun _ => none, true⟩

/-- C6: when fetching the type of a mapped type's constraint throws,
the failure is recovered locally: exactly one warning
`Constraint <text> at <file:line:col> could not be resolved, and was
ignored.` is emitted, no symbols are emitted for that node, and the
rest of the document is still classified (the call returns normally). -/
theorem C6_constraint_resolution_failure :
    (∀ (aliasName : String) (aliasLoc : SourceLocation) (c : ConstraintNode) (fn : String),
        c.isKeyOfOperator = false → c.resolvedType = none →
        visitTypeAliasDeclaration ⟨aliasName, aliasLoc, .mappedType ⟨some c⟩⟩ fn =
          [TravEvent.warnEvent
            ("Constraint " ++ c.text ++ " at " ++ formatLocation c.loc ++
              " could not be resolved, and was ignored.")]) ∧
      findSymbolNames envC6 0
          ⟨"doc.d.ts", [],
            [Node.typeAliasDeclaration
              ⟨"Bad", ⟨"doc.d.ts", 0, 5⟩,
                .mappedType ⟨some ⟨false, "X", ⟨"doc.d.ts", 0, 20⟩, none⟩⟩⟩ [],
             Node.namedDeclaration .functionDeclaration [.declareKeyword]
              (.ident "after") []]⟩ [] =
        .ok ⟨[⟨SymbolType.DECLARATION, "after", SymNode.nameNode (NameNode.ident "after"),
                "doc.d.ts"⟩],
             ["Constraint X at doc.d.ts:0:20 could not be resolved, and was ignored."],
             [], []⟩ := by
  constructor
  · intro aliasName aliasLoc c fn hkey hres
    simp [visitTypeAliasDeclaration, visitMappedTypeNode, hkey, hres,
      warnUnresolvedConstraintTypeMsg]
  · rfl

theorem C6_constraint_resolution_failure_witness :
    visitTypeAliasDeclaration
        ⟨"Bad", ⟨"doc.d.ts", 0, 5⟩,
          .mappedType ⟨some ⟨false, "X", ⟨"doc.d.ts", 0, 20⟩, none⟩⟩⟩ "doc.d.ts" =
      [TravEvent.warnEvent
        "Constraint X at doc.d.ts:0:20 could not be resolved, and was ignored."] :=
  C6_constraint_resolution_failure.1 "Bad" ⟨"doc.d.ts", 0, 5⟩
    ⟨false, "X", ⟨"doc.d.ts", 0, 20⟩, none⟩ "doc.d.ts" rfl rfl

theorem nodesEvents_append (cfg : Bool) (fn : String) (a b : List Node) :
    nodesEvents cfg fn (a ++ b) = nodesEvents cfg fn a ++ nodesEvents cfg fn b := by
  induction a with
  | nil => simp [nodesEvents]
  | cons n rest ih =>
    simp only [List.cons_append, nodesEvents]
    have hab : List.append rest b = rest ++ b := rfl
    rw [hab, ih, List.append_assoc]

/-- A module specifier that fails to resolve is silently skipped. -/
theorem runEventsAux_skip_import (env : Env)
    (loadFn : String → List String → Except TraversalError TravOut)
    (text cf : String) (rest : List TravEvent) (v : List String)
    (hr : env.resolveModule text cf = none) :
    runEventsAux env loadFn (TravEvent.followImport (.stringLiteralSpec text) cf :: rest) v =
      runEventsAux env loadFn rest v := by
  simp only [runEventsAux, stepEvent, hr, exBind_ok]
  cases h2 : runEventsAux env loadFn rest v with
  | error err => rfl
  | ok out2 => simp [mergeOut]

/-- C7: an import or export declaration whose module specifier is not
a string literal makes the traversal throw
`Only string module specifiers are supported`, aborting the whole call
(the error propagates through the entry reduce); by contrast a string
specifier that merely fails to resolve is silently skipped. -/
theorem C7_nonstring_specifier_fatal (env : Env) (fuel : Nat) (fn : String)
    (refs : List String) (stmts1 stmts2 : List Node) (visited : List String)
    (out1 : TravOut)
    (hpre : runEvents env fuel (fileEvents env.visitTypeAliases ⟨fn, refs, stmts1⟩)
      visited = .ok out1) :
    (findSymbolNames env fuel
        ⟨fn, refs, stmts1 ++ Node.importDeclaration .nonStringLiteral :: stmts2⟩ visited =
        .error .onlyStringModuleSpecifiers ∧
      findSymbolNames env fuel
        ⟨fn, refs, stmts1 ++ Node.exportDeclaration .nonStringLiteral :: stmts2⟩ visited =
        .error .onlyStringModuleSpecifiers) ∧
    (∀ text : String, env.resolveModule text fn = none →
      findSymbolNames env fuel
          ⟨fn, refs, stmts1 ++ Node.importDeclaration (.stringLiteralSpec text) :: stmts2⟩
          visited =
        findSymbolNames env fuel ⟨fn, refs, stmts1 ++ stmts2⟩ visited) ∧
    ∀ (sf : SourceFile) (entries : List SourceFile) (err : TraversalError),
      findSymbolNames env fuel sf visited = .error err →
      runEntries env fuel (sf :: entries) visited = .error err := by
  have hpre2 : runEventsAux env (loadFile env fuel)
      (fileEvents env.visitTypeAliases ⟨fn, refs, stmts1⟩) visited = .ok out1 := hpre
  have hfe : ∀ (x : Node) (s2 : List Node),
      fileEvents env.visitTypeAliases ⟨fn, refs, stmts1 ++ x :: s2⟩ =
        fileEvents env.visitTypeAliases ⟨fn, refs, stmts1⟩ ++
          (nodeEvents env.visitTypeAliases fn x ++
            nodesEvents env.visitTypeAliases fn s2) := by
    intro x s2
    simp only [fileEvents, nodesEvents_append, nodesEvents, List.append_assoc]
  have habort : ∀ spec : Node,
      nodeEvents env.visitTypeAliases fn spec =
        [TravEvent.followImport .nonStringLiteral fn] →
      findSymbolNames env fuel ⟨fn, refs, stmts1 ++ spec :: stmts2⟩ visited =
        .error .onlyStringModuleSpecifiers := by
    intro spec hspec
    show runEventsAux env (loadFile env fuel)
        (fileEvents env.visitTypeAliases ⟨fn, refs, stmts1 ++ spec :: stmts2⟩) visited =
      .error .onlyStringModuleSpecifiers
    rw [hfe spec stmts2, hspec, runEventsAux_append, hpre2]
    simp [runEventsAux, stepEvent]
  refine ⟨⟨habort _ rfl, habort _ rfl⟩, ?_, ?_⟩
  · intro text hrtext
    show runEventsAux env (loadFile env fuel)
        (fileEvents env.visitTypeAliases
          ⟨fn, refs, stmts1 ++ Node.importDeclaration (.stringLiteralSpec text) :: stmts2⟩)
        visited =
      findSymbolNames env fuel ⟨fn, refs, stmts1 ++ stmts2⟩ visited
    rw [hfe (Node.importDeclaration (.stringLiteralSpec text)) stmts2]
    have hone : nodeEvents env.visitTypeAliases fn
        (Node.importDeclaration (.stringLiteralSpec text)) ++
          nodesEvents env.visitTypeAliases fn stmts2 =
        TravEvent.followImport (.stringLiteralSpec text) fn ::
          nodesEvents env.visitTypeAliases fn stmts2 := rfl
    rw [hone, runEventsAux_append, hpre2]
    have hfe2 : fileEvents env.visitTypeAliases ⟨fn, refs, stmts1 ++ stmts2⟩ =
        fileEvents env.visitTypeAliases ⟨fn, refs, stmts1⟩ ++
          nodesEvents env.visitTypeAliases fn stmts2 := by
      simp only [fileEvents, nodesEvents_append, List.append_assoc]
    show _ = runEventsAux env (loadFile env fuel)
        (fileEvents env.visitTypeAliases ⟨fn, refs, stmts1 ++ stmts2⟩) visited
    rw [hfe2, runEventsAux_append, hpre2]
    simp only [exBind_ok]
    rw [runEventsAux_skip_import env (loadFile env fuel) text fn _ out1.visited hrtext]
  · intro sf entries err herr
    simp only [runEntries, herr, exBind_error]

/-- A one-file corpus whose only statement is an import with a
non-string module specifier. -/
def envC7 : Env := ⟨id, fun r _ => r, fun _ _ => none, fun _ => none, false⟩

theorem C7_nonstring_specifier_fatal_witness :
    findSymbolNames envC7 0 ⟨"m", [], [Node.importDeclaration .nonStringLiteral]⟩ [] =
      .error .onlyStringModuleSpecifiers :=
  (C7_nonstring_specifier_fatal envC7 0 "m" [] [] [] [] (emptyOut []) rfl).1.1

/-- Entry `e` declares `a1`, imports `./b` (declaring `b1`, `b2`), then
declares `a2`: the referenced document's symbols are spliced in at the
reference point. -/
def envSplice : Env :=
  ⟨id, fun r _ => r, fun m _ => if m == "./b" then some "b" else none,
    fun f =>
      if f == "e" then
        some ⟨[], [Node.namedDeclaration .classDeclaration [.declareKeyword]
                    (.ident "a1") [],
                   Node.importDeclaration (.stringLiteralSpec "./b"),
                   Node.namedDeclaration .classDeclaration [] (.ident "a2") []]⟩
      else if f == "b" then
        some ⟨[], [Node.namedDeclaration .functionDeclaration [.declareKeyword]
                    (.ident "b1") [],
                   Node.namedDeclaration .functionDeclaration [.declareKeyword]
                    (.ident "b2") []]⟩
      else none,
    false⟩

/-- A one-file corpus declaring the same name twice. -/
def envDup : Env :=
  ⟨id, fun r _ => r, fun _ _ => none,
    fun f =>
      if f == "e" then
        some ⟨[], [Node.namedDeclaration .classDeclaration [.declareKeyword]
                    (.ident "x") [],
                   Node.namedDeclaration .classDeclaration [.declareKeyword]
                    (.ident "x") []]⟩
      else none,
    false⟩

/-- C8: the result is in depth-first pre-order discovery order —
processing a concatenation of events processes the first part, then
the second from the visited set the first left behind, appending the
symbols in order; a referenced document's symbols appear contiguously
at the reference point; and symbols are only appended, never
deduplicated, so the same name declared twice yields two entries. -/
theorem C8_result_ordering :
    (∀ (env : Env) (fuel : Nat) (a b : List TravEvent) (visited : List String),
        runEvents env fuel (a ++ b) visited =
          exBind (runEvents env fuel a visited) (fun o1 =>
            exBind (runEvents env fuel b o1.visited) (fun o2 => .ok (mergeOut o1 o2)))) ∧
      getExternalSymbols envSplice 2 ["e"] [] =
        .ok ⟨[⟨SymbolType.DECLARATION, "a1", SymNode.nameNode (NameNode.ident "a1"), "e"⟩,
              ⟨SymbolType.DECLARATION, "b1", SymNode.nameNode (NameNode.ident "b1"), "b"⟩,
              ⟨SymbolType.DECLARATION, "b2", SymNode.nameNode (NameNode.ident "b2"), "b"⟩,
              ⟨SymbolType.PROPERTY, "a2", SymNode.nameNode (NameNode.ident "a2"), "e"⟩],
             [], ["b"], ["b", "e"]⟩ ∧
      getExternalSymbols envDup 1 ["e"] [] =
        .ok ⟨[⟨SymbolType.DECLARATION, "x", SymNode.nameNode (NameNode.ident "x"), "e"⟩,
              ⟨SymbolType.DECLARATION, "x", SymNode.nameNode (NameNode.ident "x"), "e"⟩],
             [], [], ["e"]⟩ := by
  refine ⟨?_, rfl, rfl⟩
  intro env fuel a b visited
  exact runEventsAux_append env (loadFile env fuel) a b visited

end Cceg

